import Mathlib

/-!
Verification development for the PX module orchestration server.

The embedding models the core of the repository: the clock and offset
arithmetic (`platform_app/utils.py`), the cron-union next-fire computation
and job registration (`platform_app/scheduler.py`), the module session
registry and WebSocket consumer (`platform_app/consumers.py`), the
execution-timeout watchdog, and the workflow reload reconciliation.

Time model: the deployment sets `USE_TZ = False` and `TIME_ZONE =
"Asia/Shanghai"`, so every datetime the code manipulates is a naive local
wall-clock value and the trigger timezone equals the local zone; the
`parse_time_tz` localization therefore preserves every wall-clock field.
We model a datetime as an integer count of seconds of local wall-clock
time since the Unix epoch (1970-01-01 00:00:00, a Thursday).  Calendar
fields are derived with the standard civil-from-days algorithm, matching
Python's `datetime` field accessors and `weekday()` (Monday = 0).
-/

namespace PX

/-- A naive local datetime, as whole seconds since 1970-01-01 00:00:00. -/
abbrev Time := Int

/-- Day number since the epoch (floor division, as Python date arithmetic). -/
def epochDays (t : Time) : Int := Int.ediv t 86400

/-- Seconds field of a datetime. -/
def secondOf (t : Time) : Int := Int.emod t 60

/-- Minutes field of a datetime. -/
def minuteOf (t : Time) : Int := Int.emod (Int.ediv t 60) 60

/-- Hours field of a datetime. -/
def hourOf (t : Time) : Int := Int.emod (Int.ediv t 3600) 24

/-- Python `datetime.weekday()`: Monday = 0 … Sunday = 6.  The epoch day
1970-01-01 was a Thursday (= 3). -/
def weekdayOf (t : Time) : Int := Int.emod (epochDays t + 3) 7

/-- A civil calendar date. -/
structure CivilDate where
  year : Int
  month : Int
  day : Int
deriving DecidableEq, Repr

/-- Civil date of a day number since the epoch (Howard Hinnant's
days-to-civil algorithm, the one underlying Python's `datetime.date`). -/
def civilFromDays (z0 : Int) : CivilDate :=
  let z := z0 + 719468
  let era := Int.ediv z 146097
  let doe := z - era * 146097
  let yoe := Int.ediv (doe - Int.ediv doe 1460 + Int.ediv doe 36524 - Int.ediv doe 146096) 365
  let y := yoe + era * 400
  let doy := doe - (365 * yoe + Int.ediv yoe 4 - Int.ediv yoe 100)
  let mp := Int.ediv (5 * doy + 2) 153
  let d := doy - Int.ediv (153 * mp + 2) 5 + 1
  let m := if mp < 10 then mp + 3 else mp - 9
  { year := y + (if m ≤ 2 then 1 else 0), month := m, day := d }

/-- Month field of a datetime. -/
def monthOf (t : Time) : Int := (civilFromDays (epochDays t)).month

/-- Day-of-month field of a datetime. -/
def dayOf (t : Time) : Int := (civilFromDays (epochDays t)).day

/-- Embedding of `utils.parse_time_shift`: shift a datetime by
`shift_time` units; with `reverse = true` the sign of the shift is
flipped.  Units `s`, `min`, `h`, `D` map to `timedelta` seconds, minutes,
hours and days; any other unit raises `ValueError`, modelled as
`Except.error` carrying the message. -/
def parse_time_shift (time : Time) (shift_time : Int) (su : String)
    (reverse : Bool := false) : Except String Time :=
  let shift_num : Int := if reverse then -shift_time else shift_time
  if su = "s" then .ok (time + shift_num)
  else if su = "min" then .ok (time + shift_num * 60)
  else if su = "h" then .ok (time + shift_num * 3600)
  else if su = "D" then .ok (time + shift_num * 86400)
  else .error ("不支持的时间偏移单位: " ++ su)

/-- Number of seconds in one unit of a valid shift unit. -/
def unitSeconds (su : String) : Option Int :=
  if su = "s" then some 1
  else if su = "min" then some 60
  else if su = "h" then some 3600
  else if su = "D" then some 86400
  else none

theorem parse_time_shift_ok_of_unitSeconds (time shift_time : Int) (su : String)
    (reverse : Bool) (k : Int) (hk : unitSeconds su = some k) :
    parse_time_shift time shift_time su reverse =
      .ok (time + (if reverse then -shift_time else shift_time) * k) := by
  unfold unitSeconds at hk
  simp only [parse_time_shift]
  split_ifs at hk ⊢ <;> simp_all
  all_goals subst hk
  all_goals ring

theorem parse_time_shift_error_of_unitSeconds_none (time shift_time : Int)
    (su : String) (reverse : Bool) (h : unitSeconds su = none) :
    parse_time_shift time shift_time su reverse =
      .error ("不支持的时间偏移单位: " ++ su) := by
  unfold unitSeconds at h
  unfold parse_time_shift
  split_ifs at h ⊢ <;> simp_all

/-!
Cron expressions.  `get_next_execution_time` hands each 5-field string to
APScheduler's `CronTrigger`; we embed the numeric fragment of that
grammar (`*`, `*/step`, `first`, `first-last`, `first/step`,
`first-last/step`, comma lists), the fragment workflows in this
repository use.  APScheduler numbers `day_of_week` with Monday = 0 and
requires both day-of-month and day-of-week to match (AND, unlike Vixie
cron's OR).  A trigger built with fields down to `minute` defaults the
`second` field to 0.
-/

/-- One atom of a cron field. -/
inductive CronAtom
  | star
  | starStep (step : Int)
  | num (a : Int)
  | rng (a b : Int)
  | fromStep (a step : Int)
  | rngStep (a b step : Int)
deriving DecidableEq, Repr

/-- A cron field: a comma list of atoms. -/
abbrev CronField := List CronAtom

/-- Python-style split of a character list on a single separator
character; like `str.split(sep)`, empty pieces are kept. -/
def splitOnChar (sep : Char) : List Char → List (List Char)
  | [] => [[]]
  | c :: rest =>
    let r := splitOnChar sep rest
    if c = sep then [] :: r
    else
      match r with
      | [] => [[c]]
      | s :: ss => (c :: s) :: ss

/-- Split a character list at every whitespace character, keeping empty
pieces (the raw splitting underlying Python `str.split()`). -/
def splitAtWs : List Char → List (List Char)
  | [] => [[]]
  | c :: rest =>
    let r := splitAtWs rest
    if c.isWhitespace then [] :: r
    else
      match r with
      | [] => [[c]]
      | s :: ss => (c :: s) :: ss

/-- Parse a non-empty all-digit character list as a number (the `\d+` of
APScheduler's field grammar). -/
def digitsToNat? (l : List Char) : Option Nat :=
  if l = [] then none
  else if l.all (fun c => c.isDigit) then
    some (l.foldl (fun acc c => acc * 10 + (c.toNat - 48)) 0)
  else none

/-- Parse a decimal value, bounds-checked against the field range
(APScheduler raises on out-of-range values). -/
def parseVal (lo hi : Int) (s : List Char) : Option Int :=
  match digitsToNat? s with
  | some v => if lo ≤ (v : Int) ∧ (v : Int) ≤ hi then some (v : Int) else none
  | none => none

/-- Parse one atom of a cron field. -/
def parseAtom (lo hi : Int) (s : List Char) : Option CronAtom :=
  match splitOnChar '/' s with
  | [body] =>
    if body = ['*'] then some .star
    else
      match splitOnChar '-' body with
      | [av] => (parseVal lo hi av).map .num
      | [av, bv] =>
        match parseVal lo hi av, parseVal lo hi bv with
        | some a, some b => if a ≤ b then some (.rng a b) else none
        | _, _ => none
      | _ => none
  | [body, stepStr] =>
    match digitsToNat? stepStr with
    | none => none
    | some n =>
      if n = 0 then none
      else if body = ['*'] then some (.starStep (n : Int))
      else
        match splitOnChar '-' body with
        | [av] => (parseVal lo hi av).map (fun a => .fromStep a (n : Int))
        | [av, bv] =>
          match parseVal lo hi av, parseVal lo hi bv with
          | some a, some b => if a ≤ b then some (.rngStep a b (n : Int)) else none
          | _, _ => none
        | _ => none
  | _ => none

/-- Parse a whole cron field (comma list of atoms). -/
def parseField (lo hi : Int) (s : List Char) : Option CronField :=
  let parts := splitOnChar ',' s
  if parts.all (fun p => (parseAtom lo hi p).isSome) then
    some (parts.filterMap (parseAtom lo hi))
  else none

/-- Does a field value match one atom?  `lo`/`hi` are the field bounds;
`*​/n` steps from the field minimum, `a/n` steps from `a` up to the field
maximum. -/
def atomMatches (lo hi : Int) (at0 : CronAtom) (v : Int) : Bool :=
  match at0 with
  | .star => true
  | .starStep n => Int.emod (v - lo) n == 0
  | .num a => v == a
  | .rng a b => decide (a ≤ v) && decide (v ≤ b)
  | .fromStep a n => decide (a ≤ v) && decide (v ≤ hi) && (Int.emod (v - a) n == 0)
  | .rngStep a b n => decide (a ≤ v) && decide (v ≤ b) && (Int.emod (v - a) n == 0)

/-- Does a field value match a comma list? -/
def fieldMatches (lo hi : Int) (f : CronField) (v : Int) : Bool :=
  f.any (fun a => atomMatches lo hi a v)

/-- A parsed `CronTrigger` with fields down to seconds. -/
structure CronExpr where
  second : CronField
  minute : CronField
  hour : CronField
  day : CronField
  month : CronField
  dow : CronField
deriving DecidableEq, Repr

/-- Python `str.split()` with no argument: split on whitespace runs,
dropping empty pieces. -/
def splitWhitespace (s : String) : List (List Char) :=
  (splitAtWs s.toList).filter (fun p => p ≠ [])

/-- Parse a 5-field cron string `minute hour day month day_of_week` the
way `get_next_execution_time` does: reject unless it splits into exactly
5 parts (the explicit length check in the source), then hand the parts to
`CronTrigger`, whose constructor errors are caught and also lead to the
expression being skipped.  The `second` field of such a trigger defaults
to 0. -/
def parseCronExpr (s : String) : Option CronExpr :=
  match splitWhitespace s with
  | [mi, h, d, mo, dw] =>
    match parseField 0 59 mi, parseField 0 23 h, parseField 1 31 d,
        parseField 1 12 mo, parseField 0 6 dw with
    | some fmi, some fh, some fd, some fmo, some fdw =>
      some { second := [.num 0], minute := fmi, hour := fh, day := fd,
             month := fmo, dow := fdw }
    | _, _, _, _, _ => none
  | _ => none

/-- Does a trigger match a given instant? -/
def cronMatches (c : CronExpr) (t : Time) : Bool :=
  fieldMatches 0 59 c.second (secondOf t) &&
  fieldMatches 0 59 c.minute (minuteOf t) &&
  fieldMatches 0 23 c.hour (hourOf t) &&
  fieldMatches 1 31 c.day (dayOf t) &&
  fieldMatches 1 12 c.month (monthOf t) &&
  fieldMatches 0 6 c.dow (weekdayOf t)

/-- Do the minute-and-coarser fields of a trigger match the minute that
starts at `tMin`? -/
def minuteFieldsMatch (c : CronExpr) (tMin : Time) : Bool :=
  fieldMatches 0 59 c.minute (minuteOf tMin) &&
  fieldMatches 0 23 c.hour (hourOf tMin) &&
  fieldMatches 1 31 c.day (dayOf tMin) &&
  fieldMatches 1 12 c.month (monthOf tMin) &&
  fieldMatches 0 6 c.dow (weekdayOf tMin)

/-- Least matching instant within the minute starting at `tMin`, at or
after offset `lo` seconds into the minute. -/
def secondInMinute (c : CronExpr) (tMin lo : Int) : Option Time :=
  (List.range 60).findSome? fun s =>
    if lo ≤ (s : Int) && fieldMatches 0 59 c.second (s : Int) then
      some (tMin + (s : Int))
    else none

/-- APScheduler `CronTrigger.get_next_fire_time` with no previous fire
time: the least instant `≥ t` matching the trigger.  APScheduler searches
forward without bound (up to the datetime year limit, where it gives up
and returns `None`); the model bounds the search by `fuel` minutes. -/
def get_next_fire_time (c : CronExpr) (t : Time) : Nat → Option Time
  | 0 => none
  | fuel + 1 =>
    let tMin := t - Int.emod t 60
    if minuteFieldsMatch c tMin then
      match secondInMinute c tMin (Int.emod t 60) with
      | some r => some r
      | none => get_next_fire_time c (tMin + 60) fuel
    else get_next_fire_time c (tMin + 60) fuel

/-- Python `min` over a non-empty list (0 for the empty list, unreached). -/
def listMin : List Int → Int
  | [] => 0
  | x :: xs => xs.foldl min x

/-- Embedding of `scheduler.get_next_execution_time`.  The anchor is
`parse_time_tz(parse_time_shift(timezone.now(), shift, unit, reverse=True))`;
with `USE_TZ = False` both `timezone.now()` and the trigger timezone are
local wall clock, so `parse_time_tz` preserves the wall-clock value and
the anchor is the reverse shift of `now0`.  The loop accumulates the next
fire time of every string that parses as a valid 5-field expression and
yields one; the final result forward-shifts the minimum.  A raise from
the anchor shift (bad unit, outside the try block) propagates as
`Except.error`. -/
def get_next_execution_time (cron_list : List String) (shift_time : Int)
    (su : String) (now0 : Time) (fuel : Nat) : Except String (Option Time) :=
  match parse_time_shift now0 shift_time su true with
  | .error e => .error e
  | .ok now =>
    let next_times := cron_list.foldl (fun acc cron_expr =>
      match parseCronExpr cron_expr with
      | none => acc
      | some trig =>
        match get_next_fire_time trig now fuel with
        | none => acc
        | some next_time => acc ++ [next_time]) []
    match next_times with
    | [] => .ok none
    | _ =>
      match parse_time_shift (listMin next_times) shift_time su false with
      | .error e => .error e
      | .ok r => .ok (some r)

/-!
Workflows and job registration (`scheduler.add_workflow_job`,
`scheduler.remove_workflow_job`, `scheduler.reload_workflow_jobs`).
-/

/-- A persisted workflow row (`models.WorkFlow`).  `oid` is the string
form of the ObjectId primary key `workflow.id`; `workflow_id` is the
dense integer counter, nullable in the schema. -/
structure Workflow where
  oid : String
  workflow_id : Option Int
  name : String
  enable : Bool
  execute_cron_list : List String
  execute_shift_time : Int
  execute_shift_unit : String
deriving DecidableEq, Repr

/-- The key used inside a workflow's job id: `workflow.workflow_id if
workflow.workflow_id else workflow.id` — Python truthiness, so both
`None` and `0` fall back to the primary key. -/
def workflowJobKey (w : Workflow) : String :=
  match w.workflow_id with
  | some n => if n = 0 then w.oid else toString n
  | none => w.oid

/-- Job ids are modelled as character lists; every workflow job id is
`"workflow_" ++ key`. -/
def workflow_job_id (w : Workflow) : List Char :=
  "workflow_".toList ++ (workflowJobKey w).toList

/-- The trigger `add_workflow_job` registers: it computes the single
next execution time and builds a `CronTrigger` whose `minute`, `hour`,
`day`, `month`, `second` and `day_of_week` fields are the literal field
values of that one datetime.  When the next time cannot be computed
(`None`, or an exception caught by the enclosing handler) no job is
added. -/
def registered_trigger (w : Workflow) (now0 : Time) (fuel : Nat) :
    Option CronExpr :=
  match get_next_execution_time w.execute_cron_list w.execute_shift_time
      w.execute_shift_unit now0 fuel with
  | .error _ => none
  | .ok none => none
  | .ok (some nt) =>
    some { second := [.num (secondOf nt)], minute := [.num (minuteOf nt)],
           hour := [.num (hourOf nt)], day := [.num (dayOf nt)],
           month := [.num (monthOf nt)], dow := [.num (weekdayOf nt)] }

/-- Modelled from the spec (§4.2, §4.6): the union-trigger fire
predicate the spec ascribes to a registered workflow job — the job fires
at `t` exactly when the reverse shift of `t` is an instant matched by
some member of `execute_cron_list`.  The corresponding union-trigger
variant of `add_workflow_job` is not in the source tree (only the
single-next-fire variant is). -/
def unionFiresAt (w : Workflow) (t : Time) : Bool :=
  match unitSeconds w.execute_shift_unit with
  | none => false
  | some k =>
    w.execute_cron_list.any fun e =>
      match parseCronExpr e with
      | none => false
      | some c => cronMatches c (t - w.execute_shift_time * k)

/-- Does `add_workflow_job` actually register a job for this workflow at
this instant (a next execution time is computable)? -/
def schedulable (w : Workflow) (now0 : Time) (fuel : Nat) : Bool :=
  match get_next_execution_time w.execute_cron_list w.execute_shift_time
      w.execute_shift_unit now0 fuel with
  | .ok (some _) => true
  | _ => false

/-- Effect of `add_workflow_job` on the scheduler's job-id table: a job
is added (with `replace_existing=True`) only when a next execution time
was computed; on `None` or exception the function returns without adding. -/
def add_workflow_job (w : Workflow) (now0 : Time) (fuel : Nat)
    (jobs : Finset (List Char)) : Finset (List Char) :=
  match get_next_execution_time w.execute_cron_list w.execute_shift_time
      w.execute_shift_unit now0 fuel with
  | .ok (some _) => insert (workflow_job_id w) jobs
  | _ => jobs

/-- Effect of `remove_workflow_job`: drop the workflow's job id if
registered. -/
def remove_workflow_job (w : Workflow) (jobs : Finset (List Char)) :
    Finset (List Char) :=
  jobs.erase (workflow_job_id w)

/-- Embedding of `scheduler.reload_workflow_jobs`: collect the job ids
of every current workflow while removing each of their jobs, purge every
remaining `workflow_`-prefixed job not backed by a current workflow, then
add a job for every enabled workflow. -/
def reload_workflow_jobs (store : List Workflow) (now0 : Time) (fuel : Nat)
    (jobs : Finset (List Char)) : Finset (List Char) :=
  let valid_job_ids := (store.map workflow_job_id).toFinset
  let jobs1 := store.foldl (fun js w => remove_workflow_job w js) jobs
  let jobs2 := jobs1.filter
    (fun j => ¬("workflow_".toList.isPrefixOf j ∧ j ∉ valid_job_ids))
  (store.filter (fun w => w.enable)).foldl
    (fun js w => add_workflow_job w now0 fuel js) jobs2

/-- Every workflow job id carries the `workflow_` marker. -/
theorem workflow_job_id_marked (w : Workflow) :
    "workflow_".toList.isPrefixOf (workflow_job_id w) = true := by
  rw [ List.isPrefixOf_iff_prefix]
  exact List.prefix_append _ _

/-- Removing every current workflow's job leaves exactly the jobs whose
id belongs to no current workflow. -/
theorem mem_foldl_remove (store : List Workflow) (jobs : Finset (List Char))
    (j : List Char) :
    (j ∈ store.foldl (fun js w => remove_workflow_job w js) jobs) ↔
      j ∈ jobs ∧ j ∉ store.map workflow_job_id := by
  induction store generalizing jobs with
  | nil => simp
  | cons w ws ih =>
    simp only [List.foldl_cons, List.map_cons, List.mem_cons]
    rw [ih]
    simp only [remove_workflow_job, Finset.mem_erase]
    tauto

/-- Adding jobs for a list of workflows registers exactly the ids of
those for which a next execution time is computable. -/
theorem mem_foldl_add (ws : List Workflow) (now0 : Time) (fuel : Nat)
    (jobs : Finset (List Char)) (j : List Char) :
    (j ∈ ws.foldl (fun js w => add_workflow_job w now0 fuel js) jobs) ↔
      j ∈ jobs ∨ ∃ w ∈ ws, schedulable w now0 fuel = true ∧
        j = workflow_job_id w := by
  induction ws generalizing jobs with
  | nil => simp
  | cons w ws ih =>
    simp only [List.foldl_cons, List.mem_cons]
    rw [ih]
    have hstep : (j ∈ add_workflow_job w now0 fuel jobs) ↔
        j ∈ jobs ∨ (schedulable w now0 fuel = true ∧ j = workflow_job_id w) := by
      unfold add_workflow_job schedulable
      rcases h : get_next_execution_time w.execute_cron_list
          w.execute_shift_time w.execute_shift_unit now0 fuel with e | o
      · simp
      · rcases o with _ | nt
        · simp
        · simp [Finset.mem_insert]
          tauto
    rw [hstep]
    constructor
    · rintro ((hj | ⟨hs2, hj2⟩) | ⟨w', hw', hs', hj'⟩)
      · exact .inl hj
      · exact .inr ⟨w, .inl rfl, hs2, hj2⟩
      · exact .inr ⟨w', .inr hw', hs', hj'⟩
    · rintro (hj | ⟨w', hw' | hw', hs', hj'⟩)
      · exact .inl (.inl hj)
      · subst hw'
        exact .inl (.inr ⟨hs', hj'⟩)
      · exact .inr ⟨w', hw', hs', hj'⟩

/-!
Concrete instants used to settle the scheduling claims.  `tue0958` is
2026-10-13 09:58:00 local wall clock (epoch day 20739, a Tuesday);
`tue1004_30` is 10:04:30 of the same day.
-/

/-- A workflow with the cron spec of P7: `*/5 10 * * 1-5`, shifted 30
seconds earlier. -/
def p7Workflow : Workflow :=
  { oid := "64f1", workflow_id := some 1, name := "W", enable := true,
    execute_cron_list := ["*/5 10 * * 1-5"], execute_shift_time := -30,
    execute_shift_unit := "s" }

/-- 2026-10-13 09:58:00 local (a Tuesday). -/
def tue0958 : Time := 1791885480

/-- 2026-10-13 10:04:30 local. -/
def tue1004_30 : Time := 1791885870

/-- The trigger `add_workflow_job` builds for `p7Workflow` at `tue0958`:
every field pinned to the literal field values of the single next
execution time 2026-10-13 09:59:30. -/
def p7RegisteredTrig : CronExpr :=
  { second := [.num 30], minute := [.num 59], hour := [.num 9],
    day := [.num 13], month := [.num 10], dow := [.num 1] }

/-- Claim C1 (code bug).  The job `add_workflow_job` registers for the
P7 workflow does NOT fire on every instant matched by the shifted union
of its cron expressions: at 2026-10-13 09:58:00 it registers a trigger
pinned to the literal fields of the single next execution time 09:59:30,
and that trigger does not match 10:04:30 of the same day even though the
shifted cron union fires there (10:05:00 is a `*/5` minute of hour 10 on
a day APScheduler's `1-5` covers).  The source's own design intent (and
its unused `OrTrigger` import) is the union trigger; the shipped variant
degrades the cron list to a single future instant. -/
theorem C1_registered_trigger_misses_union_instant :
    registered_trigger p7Workflow tue0958 10 = some p7RegisteredTrig ∧
    unionFiresAt p7Workflow tue1004_30 = true ∧
    cronMatches p7RegisteredTrig tue1004_30 = false ∧
    cronMatches p7RegisteredTrig (tue0958 + 90) = true := by decide

/-- The accumulation loop of `get_next_execution_time` collects, in
order, the next fire time of every cron string that parses and yields
one. -/
theorem foldl_collect_next_times (now : Time) (fuel : Nat)
    (l : List String) (acc : List Time) :
    l.foldl (fun acc ce =>
      match parseCronExpr ce with
      | none => acc
      | some trig =>
        match get_next_fire_time trig now fuel with
        | none => acc
        | some nt => acc ++ [nt]) acc
    = acc ++ l.filterMap (fun ce => (parseCronExpr ce).bind
        (fun trig => get_next_fire_time trig now fuel)) := by
  induction l generalizing acc with
  | nil => simp
  | cons e l ih =>
    simp only [List.foldl_cons, List.filterMap_cons]
    cases hp : parseCronExpr e with
    | none => simp [hp, ih]
    | some trig =>
      cases hn : get_next_fire_time trig now fuel with
      | none => simp [hp, hn, ih]
      | some nt => simp [hp, hn, ih]

/-- Claim C3 (amended).  For every trigger specification with a valid
shift unit, `get_next_execution_time` anchors at the reverse shift of
`now`, skips every cron string that does not parse as a valid 5-field
expression, and returns the forward shift of the minimum of the
surviving next fire times — `None` exactly when no valid expression
contributes a next fire time (not merely when no expression is valid:
a parseable expression that never fires is also dropped). -/
theorem C3_next_execution_time_characterization
    (cron_list : List String) (shift_time : Int) (su : String)
    (now0 : Time) (fuel : Nat) (k : Int) (hk : unitSeconds su = some k) :
    get_next_execution_time cron_list shift_time su now0 fuel =
      .ok (((cron_list.filterMap fun ce => (parseCronExpr ce).bind
            fun trig => get_next_fire_time trig (now0 - shift_time * k) fuel).min?).map
            fun m => m + shift_time * k) := by
  have h1 := parse_time_shift_ok_of_unitSeconds now0 shift_time su true k hk
  have h2 : now0 + (if true then -shift_time else shift_time) * k
      = now0 - shift_time * k := by simp; ring
  rw [h2] at h1
  unfold get_next_execution_time
  rw [h1]
  simp only
  rw [foldl_collect_next_times]
  simp only [List.nil_append]
  cases hf : cron_list.filterMap (fun ce => (parseCronExpr ce).bind
      (fun trig => get_next_fire_time trig (now0 - shift_time * k) fuel)) with
  | nil => simp [List.min?]
  | cons x xs =>
    simp only
    have h3 := parse_time_shift_ok_of_unitSeconds (listMin (x :: xs))
      shift_time su false k hk
    have h4 : listMin (x :: xs) + (if false then -shift_time else shift_time) * k
        = listMin (x :: xs) + shift_time * k := by simp
    rw [h4] at h3
    rw [h3]
    simp [List.min?, listMin]

/-!
Module registry (`models.WorkModule` and the mutations performed by
`consumers.ModuleConsumer` and the zombie-connection watchdog).
-/

/-- A persisted module row (`models.WorkModule`), the fields the core
mutates. -/
structure Module where
  oid : String
  module_id : Int
  name : String
  module_hash : String
  alive : Bool
  session_id : Option String
  last_login_time : Option Time
  last_alive_time : Option Time
  last_execution_time : Option Time
deriving DecidableEq, Repr

/-- Invariant M1: a module is alive exactly when a session is bound. -/
def moduleInv (m : Module) : Prop := m.alive = true ↔ m.session_id ≠ none

instance (m : Module) : Decidable (moduleInv m) := by
  unfold moduleInv
  infer_instance

/-- `ModuleConsumer._bind_session`: set the session id, mark alive, and
stamp both `last_login_time` and `last_alive_time` with `local_now()`. -/
def bind_session (m : Module) (sid : String) (now : Time) : Module :=
  { m with
    session_id := some sid,
    alive := true,
    last_login_time := some now,
    last_alive_time := some now }

/-- `ModuleConsumer.disconnect`, once the module is found by its session
id: clear the session id and the alive flag together. -/
def disconnect_update (m : Module) : Module :=
  { m with session_id := none, alive := false }

/-- `ModuleConsumer.close_connection` (server-initiated close): clear
the session id and the alive flag together. -/
def close_connection_update (m : Module) : Module :=
  { m with session_id := none, alive := false }

/-- `ModuleConsumer._update_alive_time`: stamp `last_alive_time`. -/
def update_alive_time (m : Module) (now : Time) : Module :=
  { m with last_alive_time := some now }

/-- The zombie filter of `check_and_cleanup_zombie_connections`:
`alive=True` and (`last_alive_time < now - WEBSOCKET_TIMEOUT_SECONDS`
or `last_alive_time` is null). -/
def isZombie (now : Time) (w : Int) (m : Module) : Bool :=
  m.alive && (match m.last_alive_time with
    | none => true
    | some la => decide (la < now - w))

/-- The per-module action of the zombie sweep: a reaped module has its
session id and alive flag cleared together; any other module is left
untouched. -/
def zombie_cleanup_step (now : Time) (w : Int) (m : Module) : Module :=
  if isZombie now w m then { m with session_id := none, alive := false }
  else m

/-- Embedding of `check_and_cleanup_zombie_connections` over the whole
registry. -/
def check_and_cleanup_zombie_connections (now : Time) (w : Int)
    (mods : List Module) : List Module :=
  mods.map (zombie_cleanup_step now w)

/-- Claim C4.  `alive ⇔ session_id ≠ null` is established by
`bind_session` (both set together), re-established by disconnect and
server-initiated close (both cleared together), preserved per module and
registry-wide by the stale-session sweep, and every reaped module has
both fields cleared together. -/
theorem C4_alive_iff_session_id (m : Module) (sid : String) (now : Time)
    (w : Int) (mods : List Module) :
    moduleInv (bind_session m sid now) ∧
    moduleInv (disconnect_update m) ∧
    moduleInv (close_connection_update m) ∧
    (moduleInv m → moduleInv (zombie_cleanup_step now w m)) ∧
    ((∀ m0 ∈ mods, moduleInv m0) →
      ∀ m2 ∈ check_and_cleanup_zombie_connections now w mods, moduleInv m2) ∧
    (isZombie now w m = true →
      (zombie_cleanup_step now w m).alive = false ∧
      (zombie_cleanup_step now w m).session_id = none) := by
  refine ⟨by simp [moduleInv, bind_session],
    by simp [moduleInv, disconnect_update],
    by simp [moduleInv, close_connection_update], ?_, ?_, ?_⟩
  · intro hm
    unfold zombie_cleanup_step
    split_ifs with hz
    · simp [moduleInv]
    · exact hm
  · intro hall m2 hm2
    simp only [check_and_cleanup_zombie_connections, List.mem_map] at hm2
    obtain ⟨m0, hm0, rfl⟩ := hm2
    have := hall m0 hm0
    unfold zombie_cleanup_step
    split_ifs with hz
    · simp [moduleInv]
    · exact this
  · intro hz
    simp [zombie_cleanup_step, hz]

/-- Witness for C4: a concrete alive module with a bound session and a
stale `last_alive_time`, in a one-module registry. -/
theorem C4_witness :
    moduleInv (bind_session
      { oid := "a", module_id := 1, name := "M", module_hash := "h",
        alive := false, session_id := none, last_login_time := none,
        last_alive_time := none, last_execution_time := none } "s1" 50) ∧
    (∀ m2 ∈ check_and_cleanup_zombie_connections 1000 120
        [{ oid := "a", module_id := 1, name := "M", module_hash := "h",
           alive := true, session_id := some "s1",
           last_login_time := some 50, last_alive_time := some 50,
           last_execution_time := none }], moduleInv m2) := by
  refine ⟨(C4_alive_iff_session_id _ "s1" 50 120 []).1, ?_⟩
  exact (C4_alive_iff_session_id
    { oid := "a", module_id := 1, name := "M", module_hash := "h",
      alive := true, session_id := some "s1", last_login_time := some 50,
      last_alive_time := some 50, last_execution_time := none }
    "s1" 1000 120 _).2.2.2.2.1 (by decide)

/-- Claim C8.  `parse_time_shift` adds `n` of the unit for each of the
four supported unit tags (and subtracts it when `reverse` is set), and
raises `ValueError` (the BadUnit failure) for every other unit tag; it
raises in no other case, being total on the four tags. -/
theorem C8_parse_time_shift_units (t n : Int) (su : String) :
    (parse_time_shift t n "s" = .ok (t + n) ∧
      parse_time_shift t n "s" true = .ok (t - n)) ∧
    (parse_time_shift t n "min" = .ok (t + n * 60) ∧
      parse_time_shift t n "min" true = .ok (t - n * 60)) ∧
    (parse_time_shift t n "h" = .ok (t + n * 3600) ∧
      parse_time_shift t n "h" true = .ok (t - n * 3600)) ∧
    (parse_time_shift t n "D" = .ok (t + n * 86400) ∧
      parse_time_shift t n "D" true = .ok (t - n * 86400)) ∧
    (su ≠ "s" → su ≠ "min" → su ≠ "h" → su ≠ "D" →
      parse_time_shift t n su = .error ("不支持的时间偏移单位: " ++ su)) := by
  refine ⟨⟨?_, ?_⟩, ⟨?_, ?_⟩, ⟨?_, ?_⟩, ⟨?_, ?_⟩, fun h1 h2 h3 h4 => ?_⟩ <;>
    simp [parse_time_shift, *] <;> ring

/-- Witness for C8: the BadUnit case at unit `w`, and a forward shift in
minutes. -/
theorem C8_witness :
    parse_time_shift 100 7 "w" = .error ("不支持的时间偏移单位: " ++ "w") ∧
    parse_time_shift 100 7 "min" = .ok (100 + 7 * 60) :=
  ⟨(C8_parse_time_shift_units 100 7 "w").2.2.2.2
      (by decide) (by decide) (by decide) (by decide),
   (C8_parse_time_shift_units 100 7 "w").2.1.1⟩

/-!
Execution tracker and the execution-timeout watchdog
(`consumers._execution_waiting`, `scheduler.check_execution_timeout`).
The waiting table is a Python dict; we model it as an association list
whose keys (the execution ids) are distinct, which a dict guarantees.
-/

/-- One entry of `_execution_waiting`. -/
structure PendingExecution where
  module_id : Int
  workflow_id : String
  workflow_name : String
  module_name : String
  sent_time : Time
deriving DecidableEq, Repr

/-- The payload of `send_module_execution_timeout_notification`. -/
structure TimeoutNotification where
  workflow_name : String
  workflow_id : String
  module_name : String
  module_id : Int
  execution_id : String
  elapsed_seconds : Int
  timeout_seconds : Int
  failure_time : Time
deriving DecidableEq, Repr

/-- The notification payload the sweep tries to emit for one expired
entry: elapsed seconds are computed from the entry's `sent_time`. -/
def mkTimeoutNotification (eid : String) (p : PendingExecution)
    (now : Time) (e : Int) : TimeoutNotification :=
  { workflow_name := p.workflow_name, workflow_id := p.workflow_id,
    module_name := p.module_name, module_id := p.module_id,
    execution_id := eid, elapsed_seconds := now - p.sent_time,
    timeout_seconds := e, failure_time := now }

/-- Parameter names of `email.send_module_execution_timeout_notification`
(its signature takes `module_hash`, not `module_id`). -/
def timeoutNotificationParams : List String :=
  ["workflow_name", "workflow_id", "module_name", "module_hash",
   "execution_id", "elapsed_seconds", "timeout_seconds", "failure_time",
   "to_email"]

/-- The parameters of that signature that carry a default value. -/
def timeoutNotificationDefaults : List String := ["to_email"]

/-- Keyword arguments passed by `check_execution_timeout` when it calls
the notification sender. -/
def timeoutSweepCallKeywords : List String :=
  ["workflow_name", "workflow_id", "module_name", "module_id",
   "execution_id", "elapsed_seconds", "timeout_seconds", "failure_time"]

/-- Python keyword-argument binding: a keyword-only call binds iff every
keyword names a parameter and every parameter without a default is
supplied; otherwise the call raises `TypeError` before the body runs. -/
def pythonKwBindOk (params defaults kwargs : List String) : Bool :=
  kwargs.all (fun k => params.contains k) &&
  params.all (fun p => kwargs.contains p || defaults.contains p)

/-- The notification attempt of `check_execution_timeout`: bind the
sweep's keywords against the sender's signature and, were binding to
succeed, deliver the timeout payload.  The sweep passes `module_id`,
which is not a parameter of the sender (whose signature takes
`module_hash`), so the attempt raises `TypeError` — which the sweep
catches and logs before popping the entry anyway. -/
def timeout_notification_call (eid : String) (p : PendingExecution)
    (now : Time) (e : Int) : Except String TimeoutNotification :=
  if pythonKwBindOk timeoutNotificationParams timeoutNotificationDefaults
      timeoutSweepCallKeywords then
    .ok (mkTimeoutNotification eid p now e)
  else
    .error "TypeError: unexpected keyword argument module_id (the signature takes module_hash)"

/-- Embedding of `scheduler.check_execution_timeout`: first pass collects
every entry whose `sent_time` is strictly before `now - E`; second pass
attempts one timeout notification per expired entry — collecting it when
the call returns, dropping it when the call raises (the exception is
caught and logged) — and pops the entry from the table in either case. -/
def check_execution_timeout (table : List (String × PendingExecution))
    (now : Time) (e : Int) :
    List (String × PendingExecution) × List TimeoutNotification :=
  let timeout_threshold := now - e
  let expired := table.filter (fun kv => decide (kv.2.sent_time < timeout_threshold))
  expired.foldl
    (fun acc kv =>
      (acc.1.eraseP (fun kv2 => kv2.1 == kv.1),
       match timeout_notification_call kv.1 kv.2 now e with
       | .ok n => acc.2 ++ [n]
       | .error _ => acc.2))
    (table, [])

/-- Every notification attempt of the sweep raises: `module_id` is not
among the sender's parameters. -/
theorem timeout_notification_call_raises (eid : String)
    (p : PendingExecution) (now : Time) (e : Int) :
    timeout_notification_call eid p now e
      = .error "TypeError: unexpected keyword argument module_id (the signature takes module_hash)" := by
  rw [timeout_notification_call, if_neg (by decide)]

/-- The sweep's fold reduces to an erase fold on the table; the
notification list never grows because every send attempt raises. -/
theorem check_timeout_fold_split (exp : List (String × PendingExecution))
    (now : Time) (e : Int) (tbl : List (String × PendingExecution))
    (ns : List TimeoutNotification) :
    exp.foldl
      (fun acc kv =>
        (acc.1.eraseP (fun kv2 => kv2.1 == kv.1),
         match timeout_notification_call kv.1 kv.2 now e with
         | .ok n => acc.2 ++ [n]
         | .error _ => acc.2))
      (tbl, ns)
    = (exp.foldl (fun l kv => l.eraseP (fun kv2 => kv2.1 == kv.1)) tbl, ns) := by
  induction exp generalizing tbl ns with
  | nil => rfl
  | cons kv exp ih =>
    simp only [List.foldl_cons, timeout_notification_call_raises]
    exact ih _ _

/-- With distinct keys, a keyed entry is unique. -/
theorem eq_of_mem_of_nodup_keys (l : List (String × PendingExecution))
    (h : (l.map Prod.fst).Nodup) (kv kv2 : String × PendingExecution)
    (h1 : kv ∈ l) (h2 : kv2 ∈ l) (hk : kv.1 = kv2.1) : kv = kv2 := by
  induction l with
  | nil => cases h1
  | cons a l ih =>
    simp only [List.map_cons, List.nodup_cons] at h
    rcases List.mem_cons.mp h1 with h1a | h1l
    · rcases List.mem_cons.mp h2 with h2a | h2l
      · rw [h1a, h2a]
      · refine absurd ?_ h.1
        rw [← h1a, hk]
        exact List.mem_map_of_mem Prod.fst h2l
    · rcases List.mem_cons.mp h2 with h2a | h2l
      · refine absurd ?_ h.1
        rw [← h2a, ← hk]
        exact List.mem_map_of_mem Prod.fst h1l
      · exact ih h.2 h1l h2l

/-- With distinct keys, erasing by key equals filtering that key out. -/
theorem eraseP_key_eq_filter (l : List (String × PendingExecution))
    (h : (l.map Prod.fst).Nodup) (k : String) :
    l.eraseP (fun kv => kv.1 == k) = l.filter (fun kv => !(kv.1 == k)) := by
  induction l with
  | nil => rfl
  | cons a l ih =>
    simp only [List.map_cons, List.nodup_cons] at h
    by_cases ha : a.1 = k
    · rw [List.eraseP_cons_of_pos (by simp [ha]), List.filter_cons_of_neg (by simp [ha])]
      refine (List.filter_eq_self.mpr ?_).symm
      intro kv hkv
      simp only [Bool.not_eq_true', beq_eq_false_iff_ne, ne_eq]
      intro hk
      refine h.1 ?_
      rw [ha, ← hk]
      exact List.mem_map_of_mem Prod.fst hkv
    · rw [List.eraseP_cons_of_neg (by simp [ha]), List.filter_cons_of_pos (by simp [ha])]
      rw [ih h.2]

/-- Keys of a filtered table stay distinct. -/
theorem nodup_keys_filter (l : List (String × PendingExecution))
    (h : (l.map Prod.fst).Nodup) (p : String × PendingExecution → Bool) :
    ((l.filter p).map Prod.fst).Nodup :=
  h.sublist ((List.filter_sublist l).map Prod.fst)

/-- Folding key-erasure over a list of entries filters all their keys
out. -/
theorem foldl_eraseP_keys (ks : List String) (l : List (String × PendingExecution))
    (h : (l.map Prod.fst).Nodup) :
    ks.foldl (fun acc k => acc.eraseP (fun kv => kv.1 == k)) l
      = l.filter (fun kv => !(ks.contains kv.1)) := by
  induction ks generalizing l with
  | nil => simp
  | cons k ks ih =>
    simp only [List.foldl_cons]
    rw [eraseP_key_eq_filter l h k, ih _ (nodup_keys_filter l h _),
      List.filter_filter]
    refine List.filter_congr ?_
    intro kv _
    simp only [List.contains_cons]
    cases hk : kv.1 == k <;> simp [hk, Bool.and_comm]

/-- With distinct execution ids, the table component of the sweep
retains exactly the entries whose `sent_time` is at or after the
threshold `now - E` (and removes exactly the strictly earlier ones). -/
theorem check_execution_timeout_fst_exact
    (table : List (String × PendingExecution))
    (now : Time) (e : Int) (h : (table.map Prod.fst).Nodup) :
    (check_execution_timeout table now e).1
      = table.filter (fun kv => !decide (kv.2.sent_time < now - e)) := by
  unfold check_execution_timeout
  rw [check_timeout_fold_split]
  have hfold : ∀ (exp tbl : List (String × PendingExecution)),
      exp.foldl (fun l kv => l.eraseP (fun kv2 => kv2.1 == kv.1)) tbl
        = (exp.map Prod.fst).foldl
            (fun l k => l.eraseP (fun kv2 => kv2.1 == k)) tbl := by
    intro exp tbl
    rw [List.foldl_map]
  dsimp only
  rw [hfold, foldl_eraseP_keys _ _ h]
  refine List.filter_congr ?_
  intro kv hkv
  congr 1
  by_cases hp : kv.2.sent_time < now - e
  · have hm : kv.1 ∈ (table.filter
        (fun kv => decide (kv.2.sent_time < now - e))).map Prod.fst :=
      List.mem_map_of_mem Prod.fst (List.mem_filter.mpr ⟨hkv, by simp [hp]⟩)
    simp [hp, hm]
  · simp only [decide_eq_false hp]
    rw [Bool.eq_false_iff]
    intro hc
    have hmem : kv.1 ∈ (table.filter
        (fun kv => decide (kv.2.sent_time < now - e))).map Prod.fst := by
      simpa using hc
    obtain ⟨kv2, hkv2, hk⟩ := List.mem_map.mp hmem
    obtain ⟨hkv2t, hp2⟩ := List.mem_filter.mp hkv2
    have heq := eq_of_mem_of_nodup_keys table h kv kv2 hkv hkv2t hk.symm
    rw [heq] at hp
    exact hp (by simpa using hp2)

/-- A stale waiting entry (sent well before the timeout threshold). -/
def c6Stale : PendingExecution :=
  { module_id := 1, workflow_id := "7", workflow_name := "W",
    module_name := "M", sent_time := 100 }

/-- A fresh waiting entry (sent within the timeout window). -/
def c6Fresh : PendingExecution :=
  { module_id := 2, workflow_id := "8", workflow_name := "V",
    module_name := "N", sent_time := 950 }

/-- Claim C6 (code bug).  The sweep does remove exactly the entries whose
`sent_time` is strictly before `now - E` and leaves the rest unchanged,
but it emits NO ExecutionTimeout notification — let alone exactly one per
removed entry: the call in `check_execution_timeout` passes the keyword
`module_id` to `send_module_execution_timeout_notification`, whose
signature takes `module_hash` instead, so every attempt raises
`TypeError` at keyword binding, is caught by the per-entry handler, and
only the pop proceeds.  Concretely: `module_id` names no parameter, the
keyword binding fails, the notification list is empty for every table and
sweep instant, and on a two-entry table at `now = 1000`, `E = 120` the
stale entry (sent at 100) is popped and the fresh one (sent at 950) kept
while nothing is emitted. -/
theorem C6_timeout_sweep_pops_without_notifying :
    timeoutNotificationParams.contains "module_id" = false ∧
    pythonKwBindOk timeoutNotificationParams timeoutNotificationDefaults
      timeoutSweepCallKeywords = false ∧
    (∀ (table : List (String × PendingExecution)) (now e : Int),
      (check_execution_timeout table now e).2 = []) ∧
    (check_execution_timeout [("e1", c6Stale), ("e2", c6Fresh)] 1000 120)
      = ([("e2", c6Fresh)], []) := by
  refine ⟨by decide, by decide, ?_, by decide⟩
  intro table now e
  unfold check_execution_timeout
  rw [check_timeout_fold_split]

/-!
Module-hash extraction at connect time
(`self.scope["query_string"].decode().split("hash=")[-1]`).  Python's
`str.split(sep)` scans left to right, consuming non-overlapping
occurrences of the separator; we embed it for the concrete separator
`hash=` as a character-list scanner (`skip` counts separator characters
still to be consumed after a match was recognised). -/

/-- The characters of the separator `hash=`. -/
def hashSepChars : List Char := ['h', 'a', 's', 'h', '=']

/-- Scanner underlying `split("hash=")`. -/
def splitHashAux : List Char → Nat → List (List Char)
  | [], _ => [[]]
  | _ :: rest, skip + 1 => splitHashAux rest skip
  | c :: rest, 0 =>
    if hashSepChars.isPrefixOf (c :: rest) then
      [] :: splitHashAux rest 4
    else
      match splitHashAux rest 0 with
      | [] => [[c]]
      | s :: ss => (c :: s) :: ss

/-- Python `query.split("hash=")`. -/
def splitOnHashSep (l : List Char) : List (List Char) := splitHashAux l 0

/-- Embedding of the hash extraction in `ModuleConsumer.connect`: the
last segment of the `hash=`-split of the query string, or the empty
string when the query string itself is empty (falsy). -/
def extract_module_hash (query : List Char) : List Char :=
  if query = [] then [] else (splitOnHashSep query).getLastD []

/-- Does `hash=` occur as a substring? -/
def hasHashSep : List Char → Bool
  | [] => false
  | c :: rest => hashSepChars.isPrefixOf (c :: rest) || hasHashSep rest

/-- The split of any string is non-empty. -/
theorem splitHashAux_ne_nil (l : List Char) (skip : Nat) :
    splitHashAux l skip ≠ [] := by
  induction l generalizing skip with
  | nil => simp [splitHashAux]
  | cons c rest ih =>
    cases skip with
    | succ n => exact ih n
    | zero =>
      rw [splitHashAux]
      split_ifs
      · simp
      · cases h : splitHashAux rest 0 <;> simp

/-- Consuming exactly the pending separator characters resumes a clean
scan. -/
theorem splitHashAux_skip (pre u : List Char) :
    splitHashAux (pre ++ u) pre.length = splitHashAux u 0 := by
  induction pre with
  | nil => rfl
  | cons c pre ih => simpa [splitHashAux] using ih

/-- A string not containing the separator splits into itself alone. -/
theorem splitOnHashSep_no_sep (l : List Char) (h : hasHashSep l = false) :
    splitOnHashSep l = [l] := by
  induction l with
  | nil => rfl
  | cons c rest ih =>
    rw [hasHashSep, Bool.or_eq_false_iff] at h
    unfold splitOnHashSep at ih ⊢
    rw [splitHashAux, if_neg (by simp [h.1]), ih h.2]

/-- Appending the separator makes it occur. -/
theorem hasHashSep_append_sep (t : List Char) :
    hasHashSep (t ++ hashSepChars) = true := by
  induction t with
  | nil => decide
  | cons c t ih => simp [hasHashSep, ih]

/-- A string containing the separator splits into at least two pieces. -/
theorem splitOnHashSep_length_ge_two (l : List Char) (h : hasHashSep l = true) :
    2 ≤ (splitOnHashSep l).length := by
  induction l with
  | nil => cases h
  | cons c rest ih =>
    unfold splitOnHashSep at ih ⊢
    rw [splitHashAux]
    rw [hasHashSep] at h
    by_cases hp : hashSepChars.isPrefixOf (c :: rest) = true
    · rw [if_pos hp]
      have := splitHashAux_ne_nil rest 4
      cases hs : splitHashAux rest 4
      · exact absurd hs this
      · simp
    · rw [if_neg hp]
      rw [Bool.or_eq_true_iff] at h
      rcases h with h | h
      · exact absurd h hp
      · have h2 := ih h
        cases hs : splitHashAux rest 0 with
        | nil => exact absurd hs (splitHashAux_ne_nil rest 0)
        | cons s ss =>
          rw [hs] at h2
          cases ss with
          | nil => simp at h2
          | cons s2 ss2 => simp

/-- The last segment of a non-empty split list does not depend on the
default. -/
theorem getLastD_irrel (l : List Char) (ls : List (List Char))
    (h : ls ≠ []) (d : List Char) : ls.getLastD l = ls.getLastD d := by
  cases ls with
  | nil => exact absurd rfl h
  | cons x xs => rw [List.getLastD_cons, List.getLastD_cons]

/-- One scan step of the splitter at a clean state. -/
theorem splitHashAux_cons_zero (c : Char) (rest : List Char) :
    splitHashAux (c :: rest) 0 =
      if hashSepChars.isPrefixOf (c :: rest) then [] :: splitHashAux rest 4
      else match splitHashAux rest 0 with
        | [] => [[c]]
        | s :: ss => (c :: s) :: ss := rfl

/-- The separator cannot simultaneously begin and end a string shorter
than two copies of it: reading index 4 of `sep ++ u = t ++ sep` gives
`'='` on one side and one of `h`, `a`, `s` on the other. -/
theorem no_straddle (t u : List Char) (h : hashSepChars ++ u = t ++ hashSepChars)
    (hlen : t.length = u.length) (h1 : 1 ≤ t.length) (h2 : t.length ≤ 4) :
    False := by
  have h4 : (hashSepChars ++ u).get? 4 = (t ++ hashSepChars).get? 4 := by rw [h]
  rw [List.get?_append (by simp [hashSepChars])] at h4
  rw [List.get?_append_right (by omega)] at h4
  have hk : t.length = 1 ∨ t.length = 2 ∨ t.length = 3 ∨ t.length = 4 := by omega
  rcases hk with hk | hk | hk | hk <;> rw [hk] at h4 <;>
    simp [hashSepChars] at h4

/-- A query that ends with the separator splits with an empty last
segment. -/
theorem splitOnHashSep_ends_sep (n : Nat) :
    ∀ (t : List Char), t.length ≤ n →
      (splitOnHashSep (t ++ hashSepChars)).getLastD [] = [] := by
  induction n with
  | zero =>
    intro t ht
    have : t = [] := List.length_eq_zero.mp (Nat.le_zero.mp ht)
    subst this
    decide
  | succ n ih =>
    intro t ht
    cases t with
    | nil => decide
    | cons c t' =>
      simp only [List.cons_append]
      by_cases hp : hashSepChars.isPrefixOf (c :: (t' ++ hashSepChars)) = true
      · obtain ⟨w, hw⟩ := List.isPrefixOf_iff_prefix.mp hp
        have hlenw : w.length = t'.length + 1 := by
          have := congrArg List.length hw
          simp [hashSepChars] at this
          omega
        by_cases hsmall : t'.length + 1 ≤ 4
        · exact (no_straddle (c :: t') w hw (by simp [hlenw]) (by simp)
            (by simpa using hsmall)).elim
        · -- long case: w itself ends with the separator
          have h5 : 5 ≤ (c :: t').length := by
            simp
            omega
          have hw2 : w = (c :: t').drop 5 ++ hashSepChars := by
            have hdrop := congrArg (List.drop 5) hw
            rw [List.drop_append_of_le_length (by simp [hashSepChars]),
              ← List.cons_append,
              List.drop_append_of_le_length (by simpa using h5)] at hdrop
            simpa [hashSepChars] using hdrop
          -- unfold one scan step
          have hstep : splitOnHashSep (c :: (t' ++ hashSepChars))
              = [] :: splitOnHashSep w := by
            unfold splitOnHashSep
            rw [splitHashAux_cons_zero, if_pos hp]
            have htail : t' ++ hashSepChars = ['a', 's', 'h', '='] ++ w := by
              have h6 := hw
              simp only [hashSepChars, List.cons_append, List.nil_append,
                List.cons.injEq] at h6
              exact h6.2.symm
            rw [htail]
            exact congrArg (fun x => [] :: x)
              (splitHashAux_skip ['a', 's', 'h', '='] w)
          rw [hstep, List.getLastD_cons, hw2]
          refine ih _ ?_
          simp only [List.length_append, List.length_drop, List.length_cons]
          simp only [List.length_cons] at ht
          simp [hashSepChars]
          omega
      · have hrest : hasHashSep (t' ++ hashSepChars) = true :=
          hasHashSep_append_sep t'
        have hlen2 := splitOnHashSep_length_ge_two _ hrest
        have hne := splitHashAux_ne_nil (t' ++ hashSepChars) 0
        have hlast : (splitOnHashSep (t' ++ hashSepChars)).getLastD [] = [] :=
          ih t' (by simp only [List.length_cons] at ht; omega)
        cases hs : splitOnHashSep (t' ++ hashSepChars) with
        | nil => exact absurd hs hne
        | cons s ss =>
          cases ss with
          | nil =>
            rw [hs] at hlen2
            simp at hlen2
          | cons s2 ss2 =>
            have hgoal : splitOnHashSep (c :: (t' ++ hashSepChars))
                = (c :: s) :: s2 :: ss2 := by
              unfold splitOnHashSep at hs ⊢
              rw [splitHashAux_cons_zero, if_neg hp, hs]
            rw [hgoal, List.getLastD_cons]
            rw [hs, List.getLastD_cons] at hlast
            rw [getLastD_irrel (c :: s) (s2 :: ss2) (by simp) s]
            exact hlast

/-!
Connection establishment (`ModuleConsumer.connect`).  The registry is
the list of persisted modules; `module_hash` is unique across it
(schema constraint), so Django's `get` is modelled by `find?`.
-/

/-- Outcome of a connection attempt: either the socket was accepted (and
a session bound), or it was closed before `accept` for one of the three
rejection reasons. -/
inductive ConnectOutcome
  | accepted
  | closedMissingHash
  | closedUnknownModule
  | closedAlreadyOnline
deriving DecidableEq, Repr

/-- Embedding of `ModuleConsumer.connect`: extract the module hash from
the query string; close on a missing hash, an unknown module, or a
module already alive; otherwise bind the session (writing `session_id`,
`alive`, `last_login_time`, `last_alive_time`) and accept. -/
def connect (reg : List Module) (query : List Char) (sid : String)
    (now : Time) : List Module × ConnectOutcome :=
  let module_hash := extract_module_hash query
  if module_hash = [] then (reg, .closedMissingHash)
  else
    match reg.find? (fun m => m.module_hash.toList == module_hash) with
    | none => (reg, .closedUnknownModule)
    | some m =>
      if m.alive then (reg, .closedAlreadyOnline)
      else
        (reg.map (fun m2 => if m2.module_id == m.module_id
          then bind_session m2 sid now else m2), .accepted)

/-- Claim C7.  A connect attempt presenting the hash of a module that is
already alive is closed before being accepted and leaves every registry
row untouched; the same holds for a missing hash and for an unknown
module hash. -/
theorem C7_reject_leaves_registry_unchanged (reg : List Module)
    (query : List Char) (sid : String) (now : Time) :
    (extract_module_hash query = [] →
      connect reg query sid now = (reg, .closedMissingHash)) ∧
    (extract_module_hash query ≠ [] →
      reg.find? (fun m => m.module_hash.toList == extract_module_hash query)
        = none →
      connect reg query sid now = (reg, .closedUnknownModule)) ∧
    (∀ m, extract_module_hash query ≠ [] →
      reg.find? (fun m2 => m2.module_hash.toList == extract_module_hash query)
        = some m →
      m.alive = true →
      connect reg query sid now = (reg, .closedAlreadyOnline)) := by
  refine ⟨fun h => ?_, fun h hf => ?_, fun m h hf ha => ?_⟩
  · simp [connect, h]
  · simp only [String.toList] at hf
    simp [connect, h, hf]
  · simp only [String.toList] at hf
    simp [connect, h, hf, ha]

/-- A bound (alive) module used by the rejection witnesses. -/
def aliveModule : Module :=
  { oid := "m1", module_id := 1, name := "M", module_hash := "abc",
    alive := true, session_id := some "s0", last_login_time := some 10,
    last_alive_time := some 20, last_execution_time := none }

/-- Witness for C7: connecting with `hash=abc` while the module with
hash `abc` is alive closes the socket and leaves the registry unchanged. -/
theorem C7_witness :
    connect [aliveModule] "hash=abc".toList "s1" 100
      = ([aliveModule], .closedAlreadyOnline) :=
  (C7_reject_leaves_registry_unchanged [aliveModule] "hash=abc".toList
    "s1" 100).2.2 aliveModule (by decide) (by decide) (by decide)

/-- Claim C9 (amended).  The module hash is the last segment of the
query string split on `hash=`: a non-empty query string that does not
contain `hash=` is used whole as the module hash; the connect attempt is
rejected as a missing hash exactly when the extracted hash is empty,
which happens for the empty query string — and also for every query
string that ends with `hash=`, not only the empty one. -/
theorem C9_hash_extraction_characterized (reg : List Module)
    (q : List Char) (sid : String) (now : Time) :
    (q ≠ [] → hasHashSep q = false → extract_module_hash q = q) ∧
    ((connect reg q sid now).2 = ConnectOutcome.closedMissingHash ↔
      extract_module_hash q = []) ∧
    (∀ t, q = t ++ hashSepChars → extract_module_hash q = []) := by
  refine ⟨fun hq hsep => ?_, ?_, fun t htq => ?_⟩
  · rw [extract_module_hash, if_neg hq, splitOnHashSep_no_sep q hsep]
    rfl
  · constructor
    · intro hc
      by_contra hne
      rw [connect] at hc
      simp only [if_neg hne] at hc
      rcases hf : List.find?
          (fun m => m.module_hash.toList == extract_module_hash q) reg with
        _ | m
      · rw [hf] at hc
        simp at hc
      · rw [hf] at hc
        by_cases ha : m.alive <;> simp [ha] at hc
    · intro he
      simp [connect, he]
  · subst htq
    rw [extract_module_hash, if_neg (by simp [hashSepChars])]
    exact splitOnHashSep_ends_sep (t ++ hashSepChars).length t
      (by simp [hashSepChars])

/-- Claim C9 counterexample: the query string `hash=` is non-empty, yet
its extracted hash is empty and the connect attempt is rejected as a
missing hash — refuting "only an entirely empty query string is rejected
as a missing hash". -/
theorem C9_counterexample_nonempty_query_rejected_missing :
    extract_module_hash "hash=".toList = [] ∧
    "hash=".toList ≠ [] ∧
    (connect [] "hash=".toList "s1" 0).2
      = ConnectOutcome.closedMissingHash := by decide

/-- Witness for C9: the whole-query fallback on `abc` (no `hash=`
inside), and the ends-with-`hash=` rejection on `x&hash=`. -/
theorem C9_witness :
    extract_module_hash "abc".toList = "abc".toList ∧
    extract_module_hash ("x&".toList ++ hashSepChars) = [] :=
  ⟨(C9_hash_extraction_characterized [] "abc".toList "s" 0).1
     (by decide) (by decide),
   (C9_hash_extraction_characterized [] ("x&".toList ++ hashSepChars)
     "s" 0).2.2 "x&".toList rfl⟩

/-!
Inbound frames (`ModuleConsumer.receive`).  Payloads are character
lists; `json.loads` is abstracted as a parse function into an arbitrary
document type, since the claims quantify only over parse success and
failure.
-/

/-- A reply sent back on an inbound frame: the literal `receive result`
acknowledgement, or the malformed-JSON error object
(`json.dumps` of status `error` plus a message). -/
inductive ReceiveReply
  | receiveResult
  | errorReply (message : String)
deriving DecidableEq, Repr

/-- The message of the malformed-JSON error reply. -/
def jsonErrorMessage : String := "JSON格式错误，请发送有效的 JSON 格式消息"

/-- Python `str.strip()`: drop whitespace at both ends. -/
def stripChars (l : List Char) : List Char :=
  ((l.dropWhile Char.isWhitespace).reverse.dropWhile Char.isWhitespace).reverse

/-- Python `str.lower()`. -/
def lowerChars (l : List Char) : List Char := l.map Char.toLower

/-- Everything `receive` does on one frame: the updated module row, the
optional reply, whether the session was closed, and the document handed
to the result handler. -/
structure ReceiveEffect (J : Type) where
  module : Module
  reply : Option ReceiveReply
  closed : Bool
  handled : Option J
deriving DecidableEq

/-- Embedding of `ModuleConsumer.receive` on a bound session: first
stamp `last_alive_time`; then drop `None` and whitespace-only payloads
and the literal `ping`/`pong` (case-insensitive) silently; then parse
the payload as JSON — success routes the document to the result handler
and replies `receive result`, failure replies the error object.  No
branch closes the session. -/
def receive {J : Type} (parseJson : List Char → Option J) (m : Module)
    (now : Time) (text_data : Option (List Char)) : ReceiveEffect J :=
  let m2 := update_alive_time m now
  match text_data with
  | none => { module := m2, reply := none, closed := false, handled := none }
  | some td =>
    if stripChars td = [] then
      { module := m2, reply := none, closed := false, handled := none }
    else if lowerChars (stripChars td) = "ping".toList ∨
        lowerChars (stripChars td) = "pong".toList then
      { module := m2, reply := none, closed := false, handled := none }
    else
      match parseJson td with
      | some j =>
        { module := m2, reply := some .receiveResult, closed := false,
          handled := some j }
      | none =>
        { module := m2, reply := some (.errorReply jsonErrorMessage),
          closed := false, handled := none }

/-- Claim C5.  Every inbound frame first stamps `last_alive_time` with
the current instant and never closes the session; empty/whitespace
payloads and the literal `ping`/`pong` (case-insensitive) are silently
dropped; a payload that fails JSON parsing gets the error reply and is
not handled; a payload that parses is handled and acknowledged with the
literal `receive result` reply. -/
theorem C5_receive_frame_handling {J : Type} (parseJson : List Char → Option J)
    (m : Module) (now : Time) (td : Option (List Char)) :
    ((receive parseJson m now td).module = update_alive_time m now ∧
      (receive parseJson m now td).module.last_alive_time = some now ∧
      (receive parseJson m now td).closed = false) ∧
    (td = none → (receive parseJson m now td).reply = none) ∧
    (∀ s, td = some s → stripChars s = [] →
      (receive parseJson m now td).reply = none) ∧
    (∀ s, td = some s →
      (lowerChars (stripChars s) = "ping".toList ∨
        lowerChars (stripChars s) = "pong".toList) →
      (receive parseJson m now td).reply = none) ∧
    (∀ s, td = some s → stripChars s ≠ [] →
      ¬(lowerChars (stripChars s) = "ping".toList ∨
        lowerChars (stripChars s) = "pong".toList) →
      (parseJson s = none →
        (receive parseJson m now td).reply
          = some (.errorReply jsonErrorMessage) ∧
        (receive parseJson m now td).handled = none) ∧
      (∀ j, parseJson s = some j →
        (receive parseJson m now td).reply = some .receiveResult ∧
        (receive parseJson m now td).handled = some j)) := by
  refine ⟨?_, fun h => ?_, fun s hs he => ?_, fun s hs hping => ?_,
    fun s hs he hping => ⟨fun hpj => ?_, fun j hpj => ?_⟩⟩
  · rcases td with _ | s
    · exact ⟨rfl, rfl, rfl⟩
    · refine ⟨?_, ?_, ?_⟩ <;>
      · simp only [receive]
        split_ifs <;> try rfl
        all_goals cases parseJson s <;> simp [update_alive_time]
  · subst h
    rfl
  · subst hs
    simp only [receive]
    rw [if_pos he]
  · subst hs
    simp only [receive]
    by_cases h1 : stripChars s = []
    · rw [if_pos h1]
    · rw [if_neg h1, if_pos hping]
  · subst hs
    simp only [receive]
    rw [if_neg he, if_neg hping, hpj]
    exact ⟨rfl, rfl⟩
  · subst hs
    simp only [receive]
    rw [if_neg he, if_neg hping, hpj]
    exact ⟨rfl, rfl⟩

/-- Witness for C5: with a parser accepting only `ok`, the payload `bad`
draws the error reply and ` PING ` is silently dropped. -/
theorem C5_witness :
    (receive (fun l => if l = "ok".toList then some () else none)
        aliveModule 77 (some "bad".toList)).reply
      = some (.errorReply jsonErrorMessage) ∧
    (receive (fun l => if l = "ok".toList then some () else none)
        aliveModule 77 (some " PING ".toList)).reply = none :=
  ⟨((C5_receive_frame_handling
      (fun l => if l = "ok".toList then some () else none)
      aliveModule 77 (some "bad".toList)).2.2.2.2 "bad".toList rfl
      (by decide) (by decide)).1 (by decide) |>.1,
   (C5_receive_frame_handling
      (fun l => if l = "ok".toList then some () else none)
      aliveModule 77 (some " PING ".toList)).2.2.2.1 " PING ".toList rfl
      (by decide)⟩

/-!
Workflow dispatch (`execute_workflow`, the per-module send of lines
152-184 of `scheduler.py`).
-/

/-- Python `str(x)` on a nullable integer column (`str(None)` is the
string `None`). -/
def pyStrOfOptInt : Option Int → String
  | some n => toString n
  | none => "None"

/-- The `meta` object of an outgoing execute command. -/
structure ExecuteMeta where
  execution_id : String
  execution_time : Time
  workflow_id : String
  workflow_name : String
deriving DecidableEq, Repr

/-- An outgoing execute command; `args` carries the already-serialized
module arguments, which the claims do not inspect. -/
structure ExecuteMessage where
  type : String
  meta : ExecuteMeta
  args : String
deriving DecidableEq, Repr

/-- Embedding of one successful dispatch inside `execute_workflow`: the
module (already resolved alive by hash) gets `last_execution_time`
stamped; the message sent to the worker carries `str(workflow.id)` — the
ObjectId primary key — as `meta.workflow_id`; the pending record stored
under the fresh execution id instead carries `str(workflow.workflow_id)`,
the integer counter. -/
def dispatch_module (w : Workflow) (m : Module) (execution_id : String)
    (now : Time) (args : String) :
    Module × ExecuteMessage × (String × PendingExecution) :=
  let m2 := { m with last_execution_time := some now }
  let message : ExecuteMessage :=
    { type := "execute",
      meta := { execution_id := execution_id, execution_time := now,
                workflow_id := w.oid, workflow_name := w.name },
      args := args }
  let pending : PendingExecution :=
    { module_id := m.module_id, workflow_id := pyStrOfOptInt w.workflow_id,
      workflow_name := w.name, module_name := m.name, sent_time := now }
  (m2, message, (execution_id, pending))

/-- Claim C10.  Each dispatch sends the worker `str(workflow.id)` (the
primary key) as `meta.workflow_id` while recording
`str(workflow.workflow_id)` (the integer counter) in the pending
execution; whenever the two strings differ, the worker sees a different
workflow identifier than the tracker and the timeout notifications do. -/
theorem C10_dispatch_identifier_mismatch (w : Workflow) (m : Module)
    (eid : String) (now : Time) (args : String) :
    (dispatch_module w m eid now args).2.1.meta.workflow_id = w.oid ∧
    (dispatch_module w m eid now args).2.2.2.workflow_id
      = pyStrOfOptInt w.workflow_id ∧
    (w.oid ≠ pyStrOfOptInt w.workflow_id →
      (dispatch_module w m eid now args).2.1.meta.workflow_id
        ≠ (dispatch_module w m eid now args).2.2.2.workflow_id) := by
  exact ⟨rfl, rfl, fun h => h⟩

/-- Witness for C10: a workflow whose primary key string `64f1` differs
from its integer id `7`; the dispatched message and the pending record
disagree. -/
theorem C10_witness :
    (dispatch_module p7Workflow aliveModule "e1" 5 "").2.1.meta.workflow_id
      ≠ (dispatch_module p7Workflow aliveModule "e1" 5 "").2.2.2.workflow_id :=
  (C10_dispatch_identifier_mismatch p7Workflow aliveModule "e1" 5 "").2.2
    (by decide)

end PX

deriving instance DecidableEq for Except

namespace PX

/-- Claim C2 (amended).  After `reload_workflow_jobs`, the set of
registered jobs whose id starts with `workflow_` equals exactly the job
ids of the workflows that are enabled AND for which a next execution
time is computable; in particular no orphan `workflow_` job survives.
(An enabled workflow with no computable next time — e.g. no valid cron
expression — is silently skipped by `add_workflow_job`, which is the one
divergence from the claim as stated.) -/
theorem C2_reload_registers_schedulable_enabled_exactly
    (store : List Workflow) (now0 : Time) (fuel : Nat)
    (jobs : Finset (List Char)) :
    (reload_workflow_jobs store now0 fuel jobs).filter
        (fun j => "workflow_".toList.isPrefixOf j) =
      ((store.filter (fun w => w.enable &&
          schedulable w now0 fuel)).map workflow_job_id).toFinset := by
  ext j
  simp only [reload_workflow_jobs, Finset.mem_filter, List.mem_toFinset,
    List.mem_map, List.mem_filter, mem_foldl_add, mem_foldl_remove,
    List.mem_filter, Bool.and_eq_true]
  constructor
  · rintro ⟨⟨hj1, hpurge⟩ | ⟨w, ⟨hwmem, hen⟩, hs, hj⟩, hpfx⟩
    · exact absurd ⟨hpfx, hj1.2⟩ hpurge
    · exact ⟨w, ⟨hwmem, hen, hs⟩, hj.symm⟩
  · rintro ⟨w, ⟨hwmem, hen, hs⟩, hj⟩
    subst hj
    exact ⟨.inr ⟨w, ⟨hwmem, hen⟩, hs, rfl⟩, workflow_job_id_marked w⟩

/-- A workflow whose only cron expression is invalid: enabled, yet no
job can be registered for it. -/
def badCronWorkflow : Workflow :=
  { oid := "64f2", workflow_id := some 2, name := "B", enable := true,
    execute_cron_list := ["not a cron"], execute_shift_time := 0,
    execute_shift_unit := "s" }

/-- Claim C2 counterexample: reloading a store holding one enabled
workflow whose cron list has no valid expression registers NO job at
all, so the registered `workflow_` jobs do not equal the enabled set. -/
theorem C2_counterexample_enabled_workflow_without_job :
    reload_workflow_jobs [badCronWorkflow] tue0958 10 ∅ = ∅ ∧
    badCronWorkflow.enable = true := by decide

/-- Claim C3 counterexample: `0 0 30 2 *` parses as a valid 5-field cron
expression, yet the computed next execution time is `None` — February
never has a 30th day, so the expression contributes no next fire time.
This refutes "returns None exactly when no cron string in cron_list is
valid" as literally stated. -/
theorem C3_counterexample_valid_cron_yields_none :
    get_next_execution_time ["0 0 30 2 *"] 0 "s" tue0958 1000 = .ok none ∧
    (parseCronExpr "0 0 30 2 *").isSome = true := by
  set_option maxRecDepth 1000000 in decide

/-- Witness for C3: the characterization applied to the P7 trigger
specification at 2026-10-13 09:58:00 with unit `s`. -/
theorem C3_witness :
    unitSeconds "s" = some 1 ∧
    get_next_execution_time ["*/5 10 * * 1-5"] (-30) "s" tue0958 10 =
      .ok (((["*/5 10 * * 1-5"].filterMap fun ce => (parseCronExpr ce).bind
            fun trig => get_next_fire_time trig (tue0958 - (-30) * 1) 10).min?).map
            fun m => m + (-30) * 1) :=
  ⟨by decide,
   C3_next_execution_time_characterization ["*/5 10 * * 1-5"] (-30) "s"
     tue0958 10 1 (by decide)⟩

end PX
